import Mathlib

/-!
Verification of the SignalsLibrary signal/slot core (slib).

This file gives a shallow embedding of the signal/slot connection machinery
of src/include/slib/details/signals.inl together with the subscriber record
of signal_slot_subscriber.hpp and the caching allocator of
3rdparty/shared_allocator/cached_allocator.hpp, and proves the behavioural
claims about it.

Modelling conventions:
* Slots and signals are identified by natural-number ids sharing one id
  space (a signal privately extends slot, so a signal id also denotes its
  slot sub-object; signal::to_slot is the identity on ids).
* A subscriber node (util::subscriber) is a natural-number id; its fields
  slot and signal are the maps World.nodeSlot / World.nodeSig.
* The intrusive doubly-linked lists are modelled as Lean lists of node ids,
  head first: slot's m_first chain is World.slotList, the chain after the
  signal's m_head sentinel is World.sigList.  Unthreading a node
  (slot_unbind / signal_unbind fixing prev/next pointers) is List.erase.
* The per-slot cached_allocator's m_memoryCache vector is World.cache with
  the vector's back at the list head (push_back = cons, back/pop_back =
  head/tail), and World.backing counts the allocations requested from the
  backing shared_allocator; World.nextId provides fresh record ids for
  backing allocations.
* slot::m_deleted and signal::m_deleted (two distinct members: the signal
  class declares its own flag shadowing the parent slot's) are
  World.slotDel and World.sigDel.
* Each slot object is a delegate; World.handle records what its delegate is
  bound to: an external user handler, a signal's private_invoke (the
  binding made in the signal constructor), or unbound.
* Mutexes are no-ops in the sequential model; each source operation is
  run-to-completion, matching the library's synchronous semantics.
-/

/-- Pointwise update of a map from ids, used for all per-id state. -/
def upd {α : Type} (f : Nat → α) (a : Nat) (v : α) : Nat → α :=
  fun x => if x = a then v else f x

/-- What a slot object's delegate is bound to. -/
inductive HandlerKind : Type where
  | external : HandlerKind
  | sigInvoke : Nat → HandlerKind
  | unbound : HandlerKind
deriving DecidableEq, Repr

/-- Global state of the embedded program: all slots, signals, subscriber
nodes and per-slot allocator caches. -/
structure World : Type where
  nextId : Nat
  nodeSlot : Nat → Nat
  nodeSig : Nat → Option Nat
  slotList : Nat → List Nat
  sigList : Nat → List Nat
  slotDel : Nat → Bool
  sigDel : Nat → Bool
  cache : Nat → List Nat
  backing : Nat → Nat
  handle : Nat → HandlerKind

/-- The record id the next allocate() on slot s will return: the cache's
back if the cache is non-empty, else a fresh backing record
(cached_allocator::allocate, cached_allocator.hpp lines 217-227). -/
def allocId (w : World) (s : Nat) : Nat :=
  match w.cache s with
  | [] => w.nextId
  | c :: _ => c

/-- slot::get_new_subscriber (signals.inl lines 107-130): allocate a node
from this slot's cached_allocator (pop the cache's back, else ask the
backing allocator), construct it with subscriber(slot_type*) setting
slot := this and signal := nullptr, and thread it at the head of this
slot's list.  Returns the updated world and the node. -/
def get_new_subscriber (w : World) (s : Nat) : World × Nat :=
  match w.cache s with
  | [] =>
    ({ w with
        nextId := w.nextId + 1
        backing := upd w.backing s (w.backing s + 1)
        nodeSlot := upd w.nodeSlot w.nextId s
        nodeSig := upd w.nodeSig w.nextId none
        slotList := upd w.slotList s (w.nextId :: w.slotList s) }, w.nextId)
  | c :: rest =>
    ({ w with
        cache := upd w.cache s rest
        nodeSlot := upd w.nodeSlot c s
        nodeSig := upd w.nodeSig c none
        slotList := upd w.slotList s (c :: w.slotList s) }, c)

/-- signal::insert (signals.inl lines 292-307): thread the node right after
the m_head sentinel of signal g's list and stamp node.signal := this. -/
def signal_insert (w : World) (g : Nat) (n : Nat) : World :=
  { w with
      sigList := upd w.sigList g (n :: w.sigList g)
      nodeSig := upd w.nodeSig n (some g) }

/-- slot::connect(signal) (signals.inl lines 152-160): get a new subscriber
node and hand it to the signal's insert. -/
def slot_connect (w : World) (s : Nat) (g : Nat) : World :=
  let p := get_new_subscriber w s
  signal_insert p.1 g p.2

/-- signal::connect(slot) (signals.inl lines 319-327) runs the identical
body: _slot.get_new_subscriber() followed by insert(subscriber). -/
def signal_connect (w : World) (g : Nat) (s : Nat) : World :=
  slot_connect w s g

/-- signal::remove (signals.inl lines 309-317): if the node's signal
pointer is this signal and this signal's m_deleted flag is not set,
unthread the node from this signal's list and null its signal field
(subscriber::signal_unbind); otherwise do nothing. -/
def signal_remove (w : World) (g : Nat) (n : Nat) : World :=
  if w.nodeSig n = some g ∧ w.sigDel g = false then
    { w with
        sigList := upd w.sigList g ((w.sigList g).erase n)
        nodeSig := upd w.nodeSig n none }
  else w

/-- The call current->signal->remove(current) made by the slot teardown
loops: dispatch signal_remove through the node's signal pointer.  In the
sequential model a node threaded on a slot list always has a non-null
signal pointer; the none branch is the (unreachable) null dereference. -/
def signal_remove_opt (w : World) (n : Nat) : World :=
  match w.nodeSig n with
  | some g => signal_remove w g n
  | none => w

/-- slot::disconnect(signal) (signals.inl lines 162-188): scan this slot's
list from m_first for the first node whose signal pointer equals the given
signal; unthread it from the slot list (the m_first fix-up plus
slot_unbind), call _signal.remove on it, destroy it and return it to the
cache; return leaving everything unchanged when no node matches. -/
def slot_disconnect (w : World) (s : Nat) (g : Nat) : World :=
  match (w.slotList s).find? (fun n => w.nodeSig n == some g) with
  | none => w
  | some n =>
    let w1 := { w with slotList := upd w.slotList s ((w.slotList s).erase n) }
    let w2 := signal_remove w1 g n
    { w2 with cache := upd w2.cache s (n :: w2.cache s) }

/-- The drain loop of slot::~slot (signals.inl lines 71-93): pop each node
off the slot list in order, unthread it (slot_unbind), tell its signal to
remove it, then destroy and deallocate_force it (bypassing the cache). -/
def drain_slot : List Nat → World → World
  | [], w => w
  | n :: rest, w => drain_slot rest (signal_remove_opt w n)

/-- slot::~slot (signals.inl lines 71-93): set m_deleted, drain the whole
subscriber list through each node's signal, free every node permanently
(deallocate_force), and finally the member cached_allocator's destructor
releases the cache (cached_allocator::private_clear). -/
def slot_dtor (w : World) (s : Nat) : World :=
  let w1 := { w with slotDel := upd w.slotDel s true }
  let w2 := drain_slot (w1.slotList s) w1
  { w2 with
      slotList := upd w2.slotList s []
      cache := upd w2.cache s [] }

/-- slot::detach (signals.inl lines 197-216): silent no-op when this slot's
own m_deleted flag is set; otherwise unthread the node from this slot's
list (the m_first fix-up plus slot_unbind) and return it to the cache. -/
def slot_detach (w : World) (s : Nat) (n : Nat) : World :=
  if w.slotDel s then w
  else
    { w with
        slotList := upd w.slotList s ((w.slotList s).erase n)
        cache := upd w.cache s (n :: w.cache s) }

/-- The walk of signal::disconnect() (signals.inl lines 272-290): for each
node of the signal's list with the next pointer captured first, run
signal_unbind (null the node's signal field; its unthreading from the
signal list is subsumed by the final sentinel reset) and then the owning
slot's detach. -/
def drain_signal : List Nat → World → World
  | [], w => w
  | n :: rest, w =>
    let w1 := { w with nodeSig := upd w.nodeSig n none }
    drain_signal rest (slot_detach w1 (w1.nodeSlot n) n)

/-- signal::disconnect() (signals.inl lines 272-290): drain every
subscriber through its owning slot's detach and reset the sentinel's links
to the empty list. -/
def signal_disconnect_all (w : World) (g : Nat) : World :=
  let w1 := drain_signal (w.sigList g) w
  { w1 with sigList := upd w1.sigList g [] }

/-- signal::~signal (signals.inl lines 246-251): set the signal's own
m_deleted, run the disconnect() teardown, and then the parent slot
sub-object's destructor runs (slot::~slot on the same id). -/
def signal_dtor (w : World) (g : Nat) : World :=
  slot_dtor (signal_disconnect_all { w with sigDel := upd w.sigDel g true } g) g

/-- signal::to_slot (signals.inl lines 266-270): the upcast to the slot
sub-object, the identity on ids in this embedding. -/
def to_slot (g : Nat) : Nat := g

/-- slot::connected (signals.inl lines 218-223): m_first != nullptr. -/
def slot_connected (w : World) (s : Nat) : Bool :=
  !(w.slotList s).isEmpty

/-- signal::connected (signals.inl lines 361-366): the sentinel's next
pointer is not null. -/
def signal_connected (w : World) (g : Nat) : Bool :=
  !(w.sigList g).isEmpty

/-- The fan-out of signal::private_emit (signals.inl lines 335-347) over a
captured subscriber list: invoke each node's owning slot's delegate with
the argument, in list order.  An externally bound slot records the
invocation event (slot id, argument); a slot that is the slot sub-object
of a signal is bound (signal constructor, lines 231-236) to that signal's
private_invoke (lines 368-373), which re-emits to that signal's own list;
an unbound slot runs delegate::empty_method, recording nothing.  The fuel
bounds the re-emission depth of chained signals. -/
def emitList (w : World) : Nat → List Nat → Nat → List (Nat × Nat)
  | _, [], _ => []
  | fuel, n :: rest, x =>
    (match w.handle (w.nodeSlot n) with
      | HandlerKind.external => [(w.nodeSlot n, x)]
      | HandlerKind.unbound => []
      | HandlerKind.sigInvoke g =>
        match fuel with
        | 0 => []
        | f + 1 => emitList w f (w.sigList g) x) ++ emitList w fuel rest x
termination_by fuel l _ => (fuel, l)

/-- signal::emit_ / signal::operator() (signals.inl lines 349-359): run
private_emit over the signal's current subscriber list, returning the
trace of external handler invocations in order. -/
def emitTrace (fuel : Nat) (w : World) (g : Nat) (x : Nat) : List (Nat × Nat) :=
  emitList w fuel (w.sigList g) x

/-!
Delegate model (src/include/slib/delegate.hpp) and the per-type default
value table (src/include/slib/util/default_constructor.hpp), for the
unbound-delegate safety claim.
-/

/-- A closed universe of C++ result types covering the specializations of
the default-constructor table: bool, the signed and unsigned integral
types, float and double, pointer types (value model: Option of an
address, none = nullptr), and a generic default-constructible class type
T whose value of T() is the given dflt. -/
inductive CppType : Type 1 where
  | tBool : CppType
  | tChar : CppType
  | tUChar : CppType
  | tShort : CppType
  | tUShort : CppType
  | tInt : CppType
  | tUInt : CppType
  | tLong : CppType
  | tULong : CppType
  | tLongLong : CppType
  | tULongLong : CppType
  | tFloat : CppType
  | tDouble : CppType
  | tPtr : CppType
  | tConstPtr : CppType
  | tUser : (α : Type) → α → CppType

/-- Value space of each C++ result type: signed integrals as Int, unsigned
as Nat, float and double as Rat (only the exact constant 0 is ever
produced here), pointers as Option Nat. -/
def CppType.interp : CppType → Type
  | .tBool => Bool
  | .tChar => Int
  | .tUChar => Nat
  | .tShort => Int
  | .tUShort => Nat
  | .tInt => Int
  | .tUInt => Nat
  | .tLong => Int
  | .tULong => Nat
  | .tLongLong => Int
  | .tULongLong => Nat
  | .tFloat => Rat
  | .tDouble => Rat
  | .tPtr => Option Nat
  | .tConstPtr => Option Nat
  | .tUser α _ => α

/-- slib::util::default_constructor (default_constructor.hpp lines
93-135): the per-type table returns 0 for every numeric type
(_SLIB_STD_DEFAULT_CONSTRUCTOR instantiations), false for bool, nullptr
for the T* and const T* partial specializations, and T() for any other
type (the generic _default_constructor<T>). -/
def default_constructor : (t : CppType) → t.interp
  | .tBool => false
  | .tChar => (0 : Int)
  | .tUChar => (0 : Nat)
  | .tShort => (0 : Int)
  | .tUShort => (0 : Nat)
  | .tInt => (0 : Int)
  | .tUInt => (0 : Nat)
  | .tLong => (0 : Int)
  | .tULong => (0 : Nat)
  | .tLongLong => (0 : Int)
  | .tULongLong => (0 : Nat)
  | .tFloat => (0 : Rat)
  | .tDouble => (0 : Rat)
  | .tPtr => none
  | .tConstPtr => none
  | .tUser _ d => d

/-- The m_method field of a delegate (delegate.hpp lines 117-120): always
a valid stub function, never null.  boundStub covers inner_method,
method_stub_const and function_stub over a real target (with the instance
pointer already closed over); emptyStub is function_stub over
delegate::empty_method. -/
inductive InnerMethod (A : Type) (t : CppType) : Type where
  | boundStub : (A → t.interp) → InnerMethod A t
  | emptyStub : InnerMethod A t

/-- slib::delegate over argument type A and result type t. -/
structure Delegate (A : Type) (t : CppType) : Type where
  m_method : InnerMethod A t

/-- The default delegate constructor (delegate.hpp line 138): m_method is
initialized to function_stub over empty_method, never to a null pointer,
so the delegate was never bound. -/
def Delegate.mkDefault (A : Type) (t : CppType) : Delegate A t :=
  ⟨InnerMethod.emptyStub⟩

/-- delegate::unbind (delegate.hpp lines 265-268): rebind m_method to
function_stub over empty_method. -/
def Delegate.unbind {A : Type} {t : CppType} (_d : Delegate A t) : Delegate A t :=
  ⟨InnerMethod.emptyStub⟩

/-- delegate::operator() (delegate.hpp lines 149-153): call through
m_method.  For an unbound delegate this reaches empty_method (delegate.hpp
lines 317-325), which returns default_constructor of the result type; the
function is total, so the call never fails. -/
def Delegate.call {A : Type} {t : CppType} (d : Delegate A t) (a : A) : t.interp :=
  match d.m_method with
  | InnerMethod.boundStub f => f a
  | InnerMethod.emptyStub => default_constructor t

/-!
Basic lemmas about the pointwise update and the connect operation.
-/

theorem upd_same {α : Type} (f : Nat → α) (a : Nat) (v : α) : upd f a v a = v := by
  simp [upd]

theorem upd_ne {α : Type} (f : Nat → α) {x a : Nat} (v : α) (h : x ≠ a) :
    upd f a v x = f x := by
  simp [upd, h]

theorem upd_upd_same {α : Type} (f : Nat → α) (a : Nat) (v v' : α) :
    upd (upd f a v) a v' = upd f a v' := by
  funext x
  by_cases h : x = a
  · subst h; simp [upd]
  · simp [upd, h]

/-- Effect of slot::connect when the allocator cache of slot s is
non-empty: the cache's back record c is reused; the backing allocator is
not consulted and nextId is unchanged. -/
theorem slot_connect_pop {w : World} {s c : Nat} {cs : List Nat} (g : Nat)
    (h : w.cache s = c :: cs) :
    slot_connect w s g =
      { w with
          cache := upd w.cache s cs
          nodeSlot := upd w.nodeSlot c s
          nodeSig := upd w.nodeSig c (some g)
          slotList := upd w.slotList s (c :: w.slotList s)
          sigList := upd w.sigList g (c :: w.sigList g) } := by
  simp only [slot_connect, get_new_subscriber, h, signal_insert]
  simp [upd_upd_same]

/-- Effect of slot::connect when the allocator cache of slot s is empty:
a fresh record is taken from the backing allocator. -/
theorem slot_connect_fresh {w : World} {s : Nat} (g : Nat)
    (h : w.cache s = []) :
    slot_connect w s g =
      { w with
          nextId := w.nextId + 1
          backing := upd w.backing s (w.backing s + 1)
          nodeSlot := upd w.nodeSlot w.nextId s
          nodeSig := upd w.nodeSig w.nextId (some g)
          slotList := upd w.slotList s (w.nextId :: w.slotList s)
          sigList := upd w.sigList g (w.nextId :: w.sigList g) } := by
  simp only [slot_connect, get_new_subscriber, h, signal_insert]
  simp [upd_upd_same]

theorem slot_connect_sigList_self (w : World) (s g : Nat) :
    (slot_connect w s g).sigList g = allocId w s :: w.sigList g := by
  cases h : w.cache s with
  | nil => rw [slot_connect_fresh g h]; simp [allocId, h, upd_same]
  | cons c cs => rw [slot_connect_pop g h]; simp [allocId, h, upd_same]

theorem slot_connect_sigList_other (w : World) (s g : Nat) {g' : Nat} (h' : g' ≠ g) :
    (slot_connect w s g).sigList g' = w.sigList g' := by
  cases h : w.cache s with
  | nil => rw [slot_connect_fresh g h]; simp [upd_ne _ _ h']
  | cons c cs => rw [slot_connect_pop g h]; simp [upd_ne _ _ h']

theorem slot_connect_slotList_self (w : World) (s g : Nat) :
    (slot_connect w s g).slotList s = allocId w s :: w.slotList s := by
  cases h : w.cache s with
  | nil => rw [slot_connect_fresh g h]; simp [allocId, h, upd_same]
  | cons c cs => rw [slot_connect_pop g h]; simp [allocId, h, upd_same]

theorem slot_connect_slotList_other (w : World) (s g : Nat) {s' : Nat} (h' : s' ≠ s) :
    (slot_connect w s g).slotList s' = w.slotList s' := by
  cases h : w.cache s with
  | nil => rw [slot_connect_fresh g h]; simp [upd_ne _ _ h']
  | cons c cs => rw [slot_connect_pop g h]; simp [upd_ne _ _ h']

theorem slot_connect_nodeSlot_self (w : World) (s g : Nat) :
    (slot_connect w s g).nodeSlot (allocId w s) = s := by
  cases h : w.cache s with
  | nil => rw [slot_connect_fresh g h]; simp [allocId, h, upd_same]
  | cons c cs => rw [slot_connect_pop g h]; simp [allocId, h, upd_same]

theorem slot_connect_nodeSlot_other (w : World) (s g : Nat) {m : Nat}
    (h' : m ≠ allocId w s) : (slot_connect w s g).nodeSlot m = w.nodeSlot m := by
  cases h : w.cache s with
  | nil =>
    rw [slot_connect_fresh g h]
    simp only [allocId, h] at h'
    simp [upd_ne _ _ h']
  | cons c cs =>
    rw [slot_connect_pop g h]
    simp only [allocId, h] at h'
    simp [upd_ne _ _ h']

theorem slot_connect_nodeSig_self (w : World) (s g : Nat) :
    (slot_connect w s g).nodeSig (allocId w s) = some g := by
  cases h : w.cache s with
  | nil => rw [slot_connect_fresh g h]; simp [allocId, h, upd_same]
  | cons c cs => rw [slot_connect_pop g h]; simp [allocId, h, upd_same]

theorem slot_connect_nodeSig_other (w : World) (s g : Nat) {m : Nat}
    (h' : m ≠ allocId w s) : (slot_connect w s g).nodeSig m = w.nodeSig m := by
  cases h : w.cache s with
  | nil =>
    rw [slot_connect_fresh g h]
    simp only [allocId, h] at h'
    simp [upd_ne _ _ h']
  | cons c cs =>
    rw [slot_connect_pop g h]
    simp only [allocId, h] at h'
    simp [upd_ne _ _ h']

theorem slot_connect_handle (w : World) (s g : Nat) :
    (slot_connect w s g).handle = w.handle := by
  cases h : w.cache s with
  | nil => rw [slot_connect_fresh g h]
  | cons c cs => rw [slot_connect_pop g h]

theorem slot_connect_sigDel (w : World) (s g : Nat) :
    (slot_connect w s g).sigDel = w.sigDel := by
  cases h : w.cache s with
  | nil => rw [slot_connect_fresh g h]
  | cons c cs => rw [slot_connect_pop g h]

theorem slot_connect_slotDel (w : World) (s g : Nat) :
    (slot_connect w s g).slotDel = w.slotDel := by
  cases h : w.cache s with
  | nil => rw [slot_connect_fresh g h]
  | cons c cs => rw [slot_connect_pop g h]

/-!
Allocation hygiene: in every state the library actually reaches, record
ids handed out by the allocators are distinct — cached records are not
threaded on any list, caches of distinct slots are disjoint, every live id
is below the fresh-id watermark, and the intrusive lists hold no
duplicates.  Freshly constructed worlds satisfy this and slot::connect
preserves it.
-/

structure WFAlloc (w : World) : Prop where
  slotLt : ∀ s n, n ∈ w.slotList s → n < w.nextId
  sigLt : ∀ g n, n ∈ w.sigList g → n < w.nextId
  cacheLt : ∀ s n, n ∈ w.cache s → n < w.nextId
  cacheSlot : ∀ s t n, n ∈ w.cache s → n ∉ w.slotList t
  cacheSig : ∀ s g n, n ∈ w.cache s → n ∉ w.sigList g
  cacheCache : ∀ s t n, s ≠ t → n ∈ w.cache s → n ∉ w.cache t
  cacheNodup : ∀ s, (w.cache s).Nodup
  slotNodup : ∀ s, (w.slotList s).Nodup
  sigNodup : ∀ g, (w.sigList g).Nodup

theorem allocId_not_mem_sigList {w : World} (hw : WFAlloc w) (s g : Nat) :
    allocId w s ∉ w.sigList g := by
  cases h : w.cache s with
  | nil =>
    simp only [allocId, h]
    intro hmem
    exact absurd (hw.sigLt g _ hmem) (Nat.lt_irrefl _)
  | cons c cs =>
    simp only [allocId, h]
    exact hw.cacheSig s g c (by rw [h]; exact List.mem_cons_self c cs)

theorem allocId_not_mem_slotList {w : World} (hw : WFAlloc w) (s t : Nat) :
    allocId w s ∉ w.slotList t := by
  cases h : w.cache s with
  | nil =>
    simp only [allocId, h]
    intro hmem
    exact absurd (hw.slotLt t _ hmem) (Nat.lt_irrefl _)
  | cons c cs =>
    simp only [allocId, h]
    exact hw.cacheSlot s t c (by rw [h]; exact List.mem_cons_self c cs)


theorem slot_connect_nextId_le (w : World) (s g : Nat) :
    w.nextId ≤ (slot_connect w s g).nextId := by
  cases h : w.cache s with
  | nil => rw [slot_connect_fresh g h]; exact Nat.le_succ _
  | cons c cs => rw [slot_connect_pop g h]

theorem allocId_lt_connect {w : World} (hw : WFAlloc w) (s g : Nat) :
    allocId w s < (slot_connect w s g).nextId := by
  cases h : w.cache s with
  | nil => rw [slot_connect_fresh g h]; simp [allocId, h]
  | cons c cs =>
    rw [slot_connect_pop g h]
    simp only [allocId, h]
    exact hw.cacheLt s c (by rw [h]; exact List.mem_cons_self c cs)

theorem mem_slotList_connect {w : World} {s g t n : Nat} :
    n ∈ (slot_connect w s g).slotList t ↔
      (t = s ∧ n = allocId w s) ∨ n ∈ w.slotList t := by
  by_cases ht : t = s
  · rw [ht, slot_connect_slotList_self]
    simp [List.mem_cons]
  · rw [slot_connect_slotList_other w s g ht]
    simp [ht]

theorem mem_sigList_connect {w : World} {s g g' n : Nat} :
    n ∈ (slot_connect w s g).sigList g' ↔
      (g' = g ∧ n = allocId w s) ∨ n ∈ w.sigList g' := by
  by_cases hg : g' = g
  · rw [hg, slot_connect_sigList_self]
    simp [List.mem_cons]
  · rw [slot_connect_sigList_other w s g hg]
    simp [hg]

theorem mem_cache_connect {w : World} (hw : WFAlloc w) {s g t n : Nat}
    (hn : n ∈ (slot_connect w s g).cache t) :
    n ∈ w.cache t ∧ n ≠ allocId w s := by
  cases h : w.cache s with
  | nil =>
    rw [slot_connect_fresh g h] at hn
    refine ⟨hn, ?_⟩
    simp only [allocId, h]
    intro hEq
    exact absurd (hw.cacheLt t n hn) (by rw [hEq]; exact Nat.lt_irrefl _)
  | cons c cs =>
    rw [slot_connect_pop g h] at hn
    dsimp only at hn
    simp only [allocId, h]
    by_cases ht : t = s
    · rw [ht] at hn ⊢
      rw [upd_same] at hn
      have hnodup := hw.cacheNodup s
      rw [h] at hnodup
      exact ⟨by rw [h]; exact List.mem_cons_of_mem c hn,
        fun hEq => (List.nodup_cons.mp hnodup).1 (hEq ▸ hn)⟩
    · rw [upd_ne _ _ ht] at hn
      exact ⟨hn, fun hEq =>
        hw.cacheCache t s n ht hn (hEq ▸ (by rw [h]; exact List.mem_cons_self c cs))⟩

theorem wfalloc_slot_connect {w : World} (hw : WFAlloc w) (s g : Nat) :
    WFAlloc (slot_connect w s g) := by
  have hle := slot_connect_nextId_le w s g
  have halt := allocId_lt_connect hw s g
  refine ⟨?_, ?_, ?_, ?_, ?_, ?_, ?_, ?_, ?_⟩
  · intro t n hn
    rcases mem_slotList_connect.mp hn with ⟨-, rfl⟩ | hn
    · exact halt
    · exact Nat.lt_of_lt_of_le (hw.slotLt t n hn) hle
  · intro g' n hn
    rcases mem_sigList_connect.mp hn with ⟨-, rfl⟩ | hn
    · exact halt
    · exact Nat.lt_of_lt_of_le (hw.sigLt g' n hn) hle
  · intro t n hn
    exact Nat.lt_of_lt_of_le (hw.cacheLt t n (mem_cache_connect hw hn).1) hle
  · intro t u n hn hmem
    rcases mem_cache_connect hw hn with ⟨hnc, hne⟩
    rcases mem_slotList_connect.mp hmem with ⟨-, rfl⟩ | hmem
    · exact hne rfl
    · exact hw.cacheSlot t u n hnc hmem
  · intro t g' n hn hmem
    rcases mem_cache_connect hw hn with ⟨hnc, hne⟩
    rcases mem_sigList_connect.mp hmem with ⟨-, rfl⟩ | hmem
    · exact hne rfl
    · exact hw.cacheSig t g' n hnc hmem
  · intro t u n htu hn hmem
    exact hw.cacheCache t u n htu (mem_cache_connect hw hn).1 (mem_cache_connect hw hmem).1
  · intro t
    cases h : w.cache s with
    | nil =>
      rw [slot_connect_fresh g h]
      exact hw.cacheNodup t
    | cons c cs =>
      rw [slot_connect_pop g h]
      dsimp only
      by_cases ht : t = s
      · rw [ht, upd_same]
        have hnodup := hw.cacheNodup s
        rw [h] at hnodup
        exact (List.nodup_cons.mp hnodup).2
      · rw [upd_ne _ _ ht]
        exact hw.cacheNodup t
  · intro t
    by_cases ht : t = s
    · rw [ht, slot_connect_slotList_self]
      exact List.Nodup.cons (allocId_not_mem_slotList hw s s) (hw.slotNodup s)
    · rw [slot_connect_slotList_other w s g ht]
      exact hw.slotNodup t
  · intro g'
    by_cases hg : g' = g
    · rw [hg, slot_connect_sigList_self]
      exact List.Nodup.cons (allocId_not_mem_sigList hw s g) (hw.sigNodup g)
    · rw [slot_connect_sigList_other w s g hg]
      exact hw.sigNodup g'

/-!
Unfolding lemmas for the emit fan-out and the trace of a list of
externally bound subscribers.
-/

theorem emitList_nil (w : World) (fuel x : Nat) : emitList w fuel [] x = [] := by
  simp [emitList]

theorem emitList_cons (w : World) (fuel n x : Nat) (rest : List Nat) :
    emitList w fuel (n :: rest) x =
      (match w.handle (w.nodeSlot n) with
        | HandlerKind.external => [(w.nodeSlot n, x)]
        | HandlerKind.unbound => []
        | HandlerKind.sigInvoke g =>
          match fuel with
          | 0 => []
          | f + 1 => emitList w f (w.sigList g) x) ++ emitList w fuel rest x := by
  rw [emitList]

theorem emitList_cons_external (w : World) (fuel n x : Nat) (rest : List Nat)
    (h : w.handle (w.nodeSlot n) = HandlerKind.external) :
    emitList w fuel (n :: rest) x =
      (w.nodeSlot n, x) :: emitList w fuel rest x := by
  rw [emitList_cons, h]
  rfl

theorem emitList_cons_sigInvoke (w : World) (f n x g : Nat) (rest : List Nat)
    (h : w.handle (w.nodeSlot n) = HandlerKind.sigInvoke g) :
    emitList w (f + 1) (n :: rest) x =
      emitList w f (w.sigList g) x ++ emitList w (f + 1) rest x := by
  rw [emitList_cons, h]

theorem emitList_all_external (w : World) (fuel x : Nat) (l : List Nat)
    (h : ∀ n ∈ l, w.handle (w.nodeSlot n) = HandlerKind.external) :
    emitList w fuel l x = l.map (fun n => (w.nodeSlot n, x)) := by
  induction l with
  | nil => exact emitList_nil w fuel x
  | cons n rest ih =>
    rw [emitList_cons_external w fuel n x rest (h n (List.mem_cons_self n rest))]
    rw [ih (fun m hm => h m (List.mem_cons_of_mem n hm))]
    rfl

/-- Connect each slot of the list, in list order, to signal g. -/
def connectList (w : World) (ss : List Nat) (g : Nat) : World :=
  ss.foldl (fun w s => slot_connect w s g) w

theorem connectList_trace (g x fuel : Nat) :
    ∀ (ss : List Nat) (w : World), WFAlloc w →
      (∀ s ∈ ss, w.handle s = HandlerKind.external) →
      (∀ n ∈ w.sigList g, w.handle (w.nodeSlot n) = HandlerKind.external) →
      emitTrace fuel (connectList w ss g) g x =
        ss.reverse.map (fun s => (s, x)) ++
          (w.sigList g).map (fun n => (w.nodeSlot n, x)) := by
  intro ss
  induction ss with
  | nil =>
    intro w _ _ hlist
    unfold connectList emitTrace
    simp only [List.foldl_nil, List.reverse_nil, List.map_nil, List.nil_append]
    exact emitList_all_external w fuel x _ hlist
  | cons s ss ih =>
    intro w hw hss hlist
    have ha : allocId w s ∉ w.sigList g := allocId_not_mem_sigList hw s g
    have hw1 : WFAlloc (slot_connect w s g) := wfalloc_slot_connect hw s g
    have hstep : connectList w (s :: ss) g = connectList (slot_connect w s g) ss g := by
      unfold connectList
      rw [List.foldl_cons]
    rw [hstep]
    have hhandle : (slot_connect w s g).handle = w.handle := slot_connect_handle w s g
    have hlist1 : ∀ n ∈ (slot_connect w s g).sigList g,
        (slot_connect w s g).handle ((slot_connect w s g).nodeSlot n) =
          HandlerKind.external := by
      intro n hn
      rw [slot_connect_sigList_self] at hn
      rcases List.mem_cons.mp hn with rfl | hn
      · rw [slot_connect_nodeSlot_self, hhandle]
        exact hss s (List.mem_cons_self s ss)
      · have hne : n ≠ allocId w s := fun hEq => ha (hEq ▸ hn)
        rw [slot_connect_nodeSlot_other w s g hne, hhandle]
        exact hlist n hn
    rw [ih (slot_connect w s g) hw1
      (fun t ht => by rw [hhandle]; exact hss t (List.mem_cons_of_mem s ht)) hlist1]
    rw [slot_connect_sigList_self]
    have hmapeq : (w.sigList g).map (fun n => ((slot_connect w s g).nodeSlot n, x)) =
        (w.sigList g).map (fun n => (w.nodeSlot n, x)) := by
      refine List.map_congr_left ?_
      intro n hn
      have hne : n ≠ allocId w s := fun hEq => ha (hEq ▸ hn)
      rw [slot_connect_nodeSlot_other w s g hne]
    simp only [List.map_cons, slot_connect_nodeSlot_self, hmapeq]
    simp [List.map_append]

/-!
Characterization of slot::disconnect(signal): the silent no-op branch and
the found branch, in which exactly the first matching node is unthreaded
from both lists and returned to the cache.
-/

theorem slot_disconnect_none {w : World} {s g : Nat}
    (hfind : (w.slotList s).find? (fun m => w.nodeSig m == some g) = none) :
    slot_disconnect w s g = w := by
  unfold slot_disconnect
  rw [hfind]

theorem slot_disconnect_found {w : World} {s g n : Nat}
    (hfind : (w.slotList s).find? (fun m => w.nodeSig m == some g) = some n)
    (hdel : w.sigDel g = false) :
    slot_disconnect w s g =
      { w with
          slotList := upd w.slotList s ((w.slotList s).erase n)
          sigList := upd w.sigList g ((w.sigList g).erase n)
          nodeSig := upd w.nodeSig n none
          cache := upd w.cache s (n :: w.cache s) } := by
  have hp := List.find?_some hfind
  have hsig : w.nodeSig n = some g := by simpa using hp
  unfold slot_disconnect
  rw [hfind]
  dsimp only
  rw [signal_remove]
  dsimp only
  rw [if_pos ⟨hsig, hdel⟩]

/-!
Drain lemmas for the two destructors.
-/

theorem signal_remove_opt_none {w : World} {n : Nat} (h : w.nodeSig n = none) :
    signal_remove_opt w n = w := by
  unfold signal_remove_opt
  rw [h]

theorem signal_remove_opt_some {w : World} {n g : Nat} (h : w.nodeSig n = some g) :
    signal_remove_opt w n = signal_remove w g n := by
  unfold signal_remove_opt
  rw [h]

/-- signal::remove never touches a slot list, a cache, the handlers, the
deletion flags, the node owners, the backing counters or the watermark. -/
theorem signal_remove_frame (w : World) (g n : Nat) :
    (signal_remove w g n).slotList = w.slotList ∧
      (signal_remove w g n).cache = w.cache ∧
      (signal_remove w g n).handle = w.handle ∧
      (signal_remove w g n).nodeSlot = w.nodeSlot ∧
      (signal_remove w g n).slotDel = w.slotDel ∧
      (signal_remove w g n).sigDel = w.sigDel ∧
      (signal_remove w g n).backing = w.backing ∧
      (signal_remove w g n).nextId = w.nextId := by
  unfold signal_remove
  by_cases hc : w.nodeSig n = some g ∧ w.sigDel g = false
  · rw [if_pos hc]
    exact ⟨rfl, rfl, rfl, rfl, rfl, rfl, rfl, rfl⟩
  · rw [if_neg hc]
    exact ⟨rfl, rfl, rfl, rfl, rfl, rfl, rfl, rfl⟩

theorem drain_slot_frame :
    ∀ (l : List Nat) (w : World),
      (drain_slot l w).slotList = w.slotList ∧
        (drain_slot l w).cache = w.cache ∧
        (drain_slot l w).handle = w.handle ∧
        (drain_slot l w).nodeSlot = w.nodeSlot ∧
        (drain_slot l w).slotDel = w.slotDel ∧
        (drain_slot l w).sigDel = w.sigDel := by
  intro l
  induction l with
  | nil => intro w; exact ⟨rfl, rfl, rfl, rfl, rfl, rfl⟩
  | cons n rest ih =>
    intro w
    have hd : drain_slot (n :: rest) w = drain_slot rest (signal_remove_opt w n) := rfl
    rw [hd]
    cases hsig : w.nodeSig n with
    | none =>
      rw [signal_remove_opt_none hsig]
      exact ih w
    | some g =>
      rw [signal_remove_opt_some hsig]
      rcases ih (signal_remove w g n) with ⟨h1, h2, h3, h4, h5, h6⟩
      rcases signal_remove_frame w g n with ⟨f1, f2, f3, f4, f5, f6, -, -⟩
      exact ⟨h1.trans f1, h2.trans f2, h3.trans f3, h4.trans f4, h5.trans f5, h6.trans f6⟩

/-- If every subscriber of signal S lies on the drained node list with its
signal pointer at S, the drain loop of slot::~slot empties S's list. -/
theorem drain_slot_sigList_empty (S : Nat) :
    ∀ (l : List Nat) (w : World),
      (∀ n ∈ w.sigList S, n ∈ l ∧ w.nodeSig n = some S) →
      w.sigDel S = false → (w.sigList S).Nodup →
      (drain_slot l w).sigList S = [] := by
  intro l
  induction l with
  | nil =>
    intro w h _ _
    cases hl : w.sigList S with
    | nil => exact hl
    | cons a t =>
      exact absurd ((h a (by rw [hl]; exact List.mem_cons_self a t)).1)
        (List.not_mem_nil a)
  | cons n rest ih =>
    intro w h hdel hnodup
    have hd : drain_slot (n :: rest) w = drain_slot rest (signal_remove_opt w n) := rfl
    rw [hd]
    cases hsig : w.nodeSig n with
    | none =>
      rw [signal_remove_opt_none hsig]
      refine ih w (fun m hm => ?_) hdel hnodup
      rcases h m hm with ⟨hml, hms⟩
      have hmn : m ≠ n := fun hEq => by rw [hEq, hsig] at hms; cases hms
      exact ⟨(List.mem_cons.mp hml).resolve_left hmn, hms⟩
    | some g =>
      rw [signal_remove_opt_some hsig]
      by_cases hgS : g = S
      · rw [hgS] at hsig
        rw [hgS, signal_remove, if_pos ⟨hsig, hdel⟩]
        refine ih _ (fun m hm => ?_) hdel ?_
        · dsimp only at hm ⊢
          rw [upd_same] at hm
          rcases (hnodup.mem_erase_iff).1 hm with ⟨hmn, hmold⟩
          rcases h m hmold with ⟨hml, hms⟩
          exact ⟨(List.mem_cons.mp hml).resolve_left hmn,
            by rw [upd_ne _ _ hmn]; exact hms⟩
        · dsimp only
          rw [upd_same]
          exact hnodup.erase n
      · have hSg : S ≠ g := fun hEq => hgS hEq.symm
        rw [signal_remove]
        by_cases hcond : w.nodeSig n = some g ∧ w.sigDel g = false
        · rw [if_pos hcond]
          refine ih _ (fun m hm => ?_) hdel ?_
          · dsimp only at hm ⊢
            rw [upd_ne _ _ hSg] at hm
            rcases h m hm with ⟨hml, hms⟩
            have hmn : m ≠ n := fun hEq => by
              rw [hEq, hsig] at hms
              exact hgS (Option.some.inj hms)
            exact ⟨(List.mem_cons.mp hml).resolve_left hmn,
              by rw [upd_ne _ _ hmn]; exact hms⟩
          · dsimp only
            rw [upd_ne _ _ hSg]
            exact hnodup
        · rw [if_neg hcond]
          refine ih w (fun m hm => ?_) hdel hnodup
          rcases h m hm with ⟨hml, hms⟩
          have hmn : m ≠ n := fun hEq => by
            rw [hEq, hsig] at hms
            exact hgS (Option.some.inj hms)
          exact ⟨(List.mem_cons.mp hml).resolve_left hmn, hms⟩

/-!
Drain lemmas for signal::disconnect() as run by the signal destructor.
-/

theorem slot_detach_frame (w : World) (s n : Nat) :
    (slot_detach w s n).nodeSlot = w.nodeSlot ∧
      (slot_detach w s n).nodeSig = w.nodeSig ∧
      (slot_detach w s n).slotDel = w.slotDel ∧
      (slot_detach w s n).sigDel = w.sigDel ∧
      (slot_detach w s n).sigList = w.sigList ∧
      (slot_detach w s n).handle = w.handle := by
  unfold slot_detach
  by_cases hdel : w.slotDel s
  · rw [if_pos hdel]
    exact ⟨rfl, rfl, rfl, rfl, rfl, rfl⟩
  · rw [if_neg hdel]
    exact ⟨rfl, rfl, rfl, rfl, rfl, rfl⟩

/-- If every node of the drained list that belongs to slot H is going to be
detached (H is live), and all of H's nodes are on the list, then the walk
of signal::disconnect() empties H's slot list. -/
theorem drain_signal_slotList_empty (H : Nat) :
    ∀ (l : List Nat) (w : World),
      (∀ m ∈ w.slotList H, m ∈ l ∧ w.nodeSlot m = H) →
      (w.slotList H).Nodup → w.slotDel H = false →
      (drain_signal l w).slotList H = [] := by
  intro l
  induction l with
  | nil =>
    intro w h _ _
    cases hl : w.slotList H with
    | nil => exact hl
    | cons a t =>
      exact absurd ((h a (by rw [hl]; exact List.mem_cons_self a t)).1)
        (List.not_mem_nil a)
  | cons n rest ih =>
    intro w h hnodup hdel
    have hd : drain_signal (n :: rest) w =
        drain_signal rest
          (slot_detach { w with nodeSig := upd w.nodeSig n none }
            (w.nodeSlot n) n) := rfl
    rw [hd]
    by_cases hsH : w.nodeSlot n = H
    · rw [hsH]
      rw [slot_detach, if_neg (by dsimp only; rw [hdel]; exact Bool.false_ne_true)]
      refine ih _ (fun m hm => ?_) ?_ ?_
      · dsimp only at hm ⊢
        rw [upd_same] at hm
        rcases (hnodup.mem_erase_iff).1 hm with ⟨hmn, hmold⟩
        rcases h m hmold with ⟨hml, hms⟩
        exact ⟨(List.mem_cons.mp hml).resolve_left hmn, hms⟩
      · dsimp only
        rw [upd_same]
        exact hnodup.erase n
      · dsimp only
        exact hdel
    · have hstep : ∀ m ∈ (slot_detach { w with nodeSig := upd w.nodeSig n none }
          (w.nodeSlot n) n).slotList H,
          m ∈ w.slotList H := by
        intro m hm
        rw [slot_detach] at hm
        by_cases hdd : ({ w with nodeSig := upd w.nodeSig n none } : World).slotDel
            (w.nodeSlot n)
        · rw [if_pos hdd] at hm
          exact hm
        · rw [if_neg hdd] at hm
          dsimp only at hm
          rw [upd_ne _ _ (fun hEq : H = w.nodeSlot n => hsH hEq.symm)] at hm
          exact hm
      have hlist : (slot_detach { w with nodeSig := upd w.nodeSig n none }
          (w.nodeSlot n) n).slotList H = w.slotList H := by
        rw [slot_detach]
        by_cases hdd : ({ w with nodeSig := upd w.nodeSig n none } : World).slotDel
            (w.nodeSlot n)
        · rw [if_pos hdd]
        · rw [if_neg hdd]
          dsimp only
          rw [upd_ne _ _ (fun hEq : H = w.nodeSlot n => hsH hEq.symm)]
      refine ih _ (fun m hm => ?_) ?_ ?_
      · rw [hlist] at hm
        rcases h m hm with ⟨hml, hms⟩
        have hmn : m ≠ n := fun hEq => hsH (hEq ▸ hms)
        have hslot : (slot_detach { w with nodeSig := upd w.nodeSig n none }
            (w.nodeSlot n) n).nodeSlot m = w.nodeSlot m :=
          congrFun (slot_detach_frame _ _ _).1 m
        exact ⟨(List.mem_cons.mp hml).resolve_left hmn, by rw [hslot]; exact hms⟩
      · rw [hlist]
        exact hnodup
      · rw [(slot_detach_frame _ _ _).2.2.1]
        exact hdel

/-!
Concrete worlds for instantiating the claim theorems.
-/

/-- A freshly started program: no objects wired, no records allocated; the
handler map records how each slot's delegate was bound at construction. -/
def initWorld (h : Nat → HandlerKind) : World :=
  { nextId := 0
    nodeSlot := fun _ => 0
    nodeSig := fun _ => none
    slotList := fun _ => []
    sigList := fun _ => []
    slotDel := fun _ => false
    sigDel := fun _ => false
    cache := fun _ => []
    backing := fun _ => 0
    handle := h }

theorem wfalloc_initWorld (h : Nat → HandlerKind) : WFAlloc (initWorld h) := by
  refine ⟨?_, ?_, ?_, ?_, ?_, ?_, ?_, ?_, ?_⟩ <;>
    simp [initWorld]

/-!
The claims.
-/

/-- C1.  For every signal S and every sequence of slots H1, ..., Hn
connected to S in that order, a call S.emit_(x) invokes the handlers in
reverse connection order, most-recently-connected first: insert places
each new subscriber node at the head of the signal's list and emit walks
the list from the head, so the trace of an emit after connecting the
slots of ss in order is exactly ss reversed. -/
theorem c1_emit_reverse_order (w : World) (g x fuel : Nat) (ss : List Nat)
    (hw : WFAlloc w) (hempty : w.sigList g = [])
    (hext : ∀ s ∈ ss, w.handle s = HandlerKind.external) :
    emitTrace fuel (connectList w ss g) g x = ss.reverse.map (fun s => (s, x)) := by
  have h := connectList_trace g x fuel ss w hw hext
    (by rw [hempty]; intro n hn; cases hn)
  rw [hempty] at h
  simpa using h

theorem c1_witness :
    emitTrace 1 (connectList (initWorld fun _ => HandlerKind.external) [1, 2] 0) 0 5 =
      [(2, 5), (1, 5)] := by
  have h := c1_emit_reverse_order (initWorld fun _ => HandlerKind.external) 0 5 1 [1, 2]
    (wfalloc_initWorld _) rfl (fun s _ => rfl)
  simpa using h

/-- C2.  For every signal S and slot H, after connecting them — through
slot::connect(signal) or through signal::connect(slot), which runs the
same body — both S.connected() and H.connected() return true; and when
that connection is the only link of each side, the matching disconnect
makes both connected() calls return false again. -/
theorem c2_connected_flags (w : World) (H S : Nat)
    (hslot : w.slotList H = []) (hsig : w.sigList S = [])
    (hdel : w.sigDel S = false) :
    signal_connect w S H = slot_connect w H S ∧
      slot_connected (slot_connect w H S) H = true ∧
      signal_connected (slot_connect w H S) S = true ∧
      slot_connected (slot_disconnect (slot_connect w H S) H S) H = false ∧
      signal_connected (slot_disconnect (slot_connect w H S) H S) S = false := by
  have h1 : (slot_connect w H S).slotList H = [allocId w H] := by
    rw [slot_connect_slotList_self, hslot]
  have h2 : (slot_connect w H S).sigList S = [allocId w H] := by
    rw [slot_connect_sigList_self, hsig]
  have h3 : (slot_connect w H S).nodeSig (allocId w H) = some S :=
    slot_connect_nodeSig_self w H S
  have hfind : ((slot_connect w H S).slotList H).find?
      (fun m => (slot_connect w H S).nodeSig m == some S) = some (allocId w H) := by
    rw [h1]
    exact List.find?_cons_of_pos _ (by rw [h3]; exact beq_self_eq_true _)
  have hdel1 : (slot_connect w H S).sigDel S = false := by
    rw [slot_connect_sigDel]
    exact hdel
  have hdisc := slot_disconnect_found hfind hdel1
  refine ⟨rfl, ?_, ?_, ?_, ?_⟩
  · rw [slot_connected, h1]
    rfl
  · rw [signal_connected, h2]
    rfl
  · rw [slot_connected, hdisc]
    dsimp only
    rw [upd_same, h1, List.erase_cons_head]
    rfl
  · rw [signal_connected, hdisc]
    dsimp only
    rw [upd_same, h2, List.erase_cons_head]
    rfl

theorem c2_witness :
    slot_connected (slot_connect (initWorld fun _ => HandlerKind.external) 1 0) 1 = true ∧
      signal_connected (slot_connect (initWorld fun _ => HandlerKind.external) 1 0) 0 = true ∧
      slot_connected
        (slot_disconnect (slot_connect (initWorld fun _ => HandlerKind.external) 1 0) 1 0)
        1 = false ∧
      signal_connected
        (slot_disconnect (slot_connect (initWorld fun _ => HandlerKind.external) 1 0) 1 0)
        0 = false := by
  have h := c2_connected_flags (initWorld fun _ => HandlerKind.external) 1 0 rfl rfl rfl
  exact ⟨h.2.1, h.2.2.1, h.2.2.2.1, h.2.2.2.2⟩

/-- C3.  Connecting the same (slot, signal) pair twice creates two
independent subscriber nodes — the two allocated records are distinct and
both sit on the signal's list — and a single subsequent emit invokes the
slot's bound handler exactly twice. -/
theorem c3_duplicate_connect (w : World) (s g x fuel : Nat)
    (hw : WFAlloc w) (hsig : w.sigList g = [])
    (hext : w.handle s = HandlerKind.external) :
    allocId (slot_connect w s g) s ≠ allocId w s ∧
      (slot_connect (slot_connect w s g) s g).sigList g =
        [allocId (slot_connect w s g) s, allocId w s] ∧
      emitTrace fuel (slot_connect (slot_connect w s g) s g) g x = [(s, x), (s, x)] := by
  have hw1 : WFAlloc (slot_connect w s g) := wfalloc_slot_connect hw s g
  have hs1 : (slot_connect w s g).sigList g = [allocId w s] := by
    rw [slot_connect_sigList_self, hsig]
  have hne : allocId (slot_connect w s g) s ≠ allocId w s := by
    intro hEq
    have := allocId_not_mem_sigList hw1 s g
    rw [hs1, hEq] at this
    exact this (List.mem_cons_self _ _)
  refine ⟨hne, ?_, ?_⟩
  · rw [slot_connect_sigList_self, hs1]
  · have htr := connectList_trace g x fuel [s, s] w hw
      (fun t ht => by
        rcases List.mem_cons.mp ht with rfl | ht
        · exact hext
        · rcases List.mem_cons.mp ht with rfl | ht
          · exact hext
          · cases ht)
      (by rw [hsig]; intro n hn; cases hn)
    have hconn : connectList w [s, s] g = slot_connect (slot_connect w s g) s g := rfl
    rw [hconn, hsig] at htr
    simpa using htr

theorem c3_witness :
    allocId (slot_connect (initWorld fun _ => HandlerKind.external) 1 0) 1 ≠
        allocId (initWorld fun _ => HandlerKind.external) 1 ∧
      (slot_connect (slot_connect (initWorld fun _ => HandlerKind.external) 1 0) 1 0).sigList
          0 = [1, 0] ∧
      emitTrace 1
          (slot_connect (slot_connect (initWorld fun _ => HandlerKind.external) 1 0) 1 0) 0
          7 = [(1, 7), (1, 7)] := by
  have h := c3_duplicate_connect (initWorld fun _ => HandlerKind.external) 1 0 7 1
    (wfalloc_initWorld _) rfl rfl
  refine ⟨h.1, ?_, h.2.2⟩
  have h2 := h.2.1
  simpa using h2

/-- C10.  For a slot connected to the same signal exactly twice,
slot::disconnect(signal) removes the node created by the later of the two
connects: disconnect scans the slot list from its head and each connect
inserted at the head, so the earlier node remains on both lists and a
subsequent emit invokes the handler exactly once. -/
theorem c10_disconnect_removes_latest (w : World) (s g x fuel : Nat)
    (hw : WFAlloc w) (hslot : w.slotList s = []) (hsig : w.sigList g = [])
    (hext : w.handle s = HandlerKind.external) (hdel : w.sigDel g = false) :
    (slot_disconnect (slot_connect (slot_connect w s g) s g) s g).sigList g =
        [allocId w s] ∧
      (slot_disconnect (slot_connect (slot_connect w s g) s g) s g).slotList s =
        [allocId w s] ∧
      emitTrace fuel (slot_disconnect (slot_connect (slot_connect w s g) s g) s g) g x =
        [(s, x)] := by
  have hw1 : WFAlloc (slot_connect w s g) := wfalloc_slot_connect hw s g
  have hs1 : (slot_connect w s g).sigList g = [allocId w s] := by
    rw [slot_connect_sigList_self, hsig]
  have hl1 : (slot_connect w s g).slotList s = [allocId w s] := by
    rw [slot_connect_slotList_self, hslot]
  have hne : allocId (slot_connect w s g) s ≠ allocId w s := by
    intro hEq
    have := allocId_not_mem_sigList hw1 s g
    rw [hs1, hEq] at this
    exact this (List.mem_cons_self _ _)
  have hs2 : (slot_connect (slot_connect w s g) s g).sigList g =
      [allocId (slot_connect w s g) s, allocId w s] := by
    rw [slot_connect_sigList_self, hs1]
  have hl2 : (slot_connect (slot_connect w s g) s g).slotList s =
      [allocId (slot_connect w s g) s, allocId w s] := by
    rw [slot_connect_slotList_self, hl1]
  have hsig2 : (slot_connect (slot_connect w s g) s g).nodeSig
      (allocId (slot_connect w s g) s) = some g :=
    slot_connect_nodeSig_self _ s g
  have hfind : ((slot_connect (slot_connect w s g) s g).slotList s).find?
      (fun m => (slot_connect (slot_connect w s g) s g).nodeSig m == some g) =
        some (allocId (slot_connect w s g) s) := by
    rw [hl2]
    exact List.find?_cons_of_pos _ (by rw [hsig2]; exact beq_self_eq_true _)
  have hdel2 : (slot_connect (slot_connect w s g) s g).sigDel g = false := by
    rw [slot_connect_sigDel, slot_connect_sigDel]
    exact hdel
  have hdisc := slot_disconnect_found hfind hdel2
  have hslot1 : (slot_connect (slot_connect w s g) s g).nodeSlot (allocId w s) = s := by
    rw [slot_connect_nodeSlot_other _ s g hne.symm]
    exact slot_connect_nodeSlot_self w s g
  have hhandle : (slot_connect (slot_connect w s g) s g).handle = w.handle := by
    rw [slot_connect_handle, slot_connect_handle]
  refine ⟨?_, ?_, ?_⟩
  · rw [hdisc]
    dsimp only
    rw [upd_same, hs2, List.erase_cons_head]
  · rw [hdisc]
    dsimp only
    rw [upd_same, hl2, List.erase_cons_head]
  · rw [emitTrace, hdisc]
    dsimp only
    rw [upd_same, hs2, List.erase_cons_head]
    rw [emitList_cons_external _ fuel _ x [] (by dsimp only; rw [hslot1, hhandle]; exact hext)]
    rw [emitList_nil]
    dsimp only
    rw [hslot1]

theorem c10_witness :
    (slot_disconnect
          (slot_connect (slot_connect (initWorld fun _ => HandlerKind.external) 1 0) 1 0) 1
          0).sigList 0 = [0] ∧
      (slot_disconnect
          (slot_connect (slot_connect (initWorld fun _ => HandlerKind.external) 1 0) 1 0) 1
          0).slotList 1 = [0] ∧
      emitTrace 3
          (slot_disconnect
            (slot_connect (slot_connect (initWorld fun _ => HandlerKind.external) 1 0) 1 0)
            1 0)
          0 9 = [(1, 9)] := by
  have h := c10_disconnect_removes_latest (initWorld fun _ => HandlerKind.external) 1 0 9 3
    (wfalloc_initWorld _) rfl rfl rfl rfl
  simpa using h

/-- C4.  Destroying a slot H unthreads every one of its subscriber nodes
from both the slot-side and the signal-side lists before freeing them:
when all of signal S's subscribers belong to H, afterwards S's list and
H's list are both empty, S.connected() returns false, and a subsequent
S.emit_(x) performs zero handler invocations (and, being a total
function, returns normally). -/
theorem c4_slot_dtor_detaches_all (w : World) (H S x fuel : Nat)
    (hmem : ∀ n ∈ w.sigList S, n ∈ w.slotList H)
    (hsig : ∀ n ∈ w.sigList S, w.nodeSig n = some S)
    (hdel : w.sigDel S = false) (hnodup : (w.sigList S).Nodup) :
    (slot_dtor w H).sigList S = [] ∧
      (slot_dtor w H).slotList H = [] ∧
      signal_connected (slot_dtor w H) S = false ∧
      emitTrace fuel (slot_dtor w H) S x = [] := by
  have hkey : (drain_slot (w.slotList H)
      { w with slotDel := upd w.slotDel H true }).sigList S = [] :=
    drain_slot_sigList_empty S (w.slotList H) _
      (fun n hn => ⟨hmem n hn, hsig n hn⟩) hdel hnodup
  have hkey' : (slot_dtor w H).sigList S = [] := hkey
  refine ⟨hkey', ?_, ?_, ?_⟩
  · show upd (drain_slot (w.slotList H)
        { w with slotDel := upd w.slotDel H true }).slotList H [] H = []
    rw [upd_same]
  · rw [signal_connected, hkey']
    rfl
  · rw [emitTrace, hkey']
    exact emitList_nil _ _ _

theorem c4_witness :
    (slot_dtor (slot_connect (initWorld fun _ => HandlerKind.external) 1 0) 1).sigList 0 =
        [] ∧
      (slot_dtor (slot_connect (initWorld fun _ => HandlerKind.external) 1 0) 1).slotList
          1 = [] ∧
      signal_connected
          (slot_dtor (slot_connect (initWorld fun _ => HandlerKind.external) 1 0) 1) 0 =
        false ∧
      emitTrace 2 (slot_dtor (slot_connect (initWorld fun _ => HandlerKind.external) 1 0) 1)
          0 4 = [] := by
  refine c4_slot_dtor_detaches_all _ 1 0 4 2 ?_ ?_ rfl ?_ <;> decide

/-- C5.  Destroying a signal S removes S's node from each connected slot's
list through that slot's detach: for every live slot H all of whose nodes
point into S's list, after signal::~signal runs H's list is empty and
H.connected() returns false. -/
theorem c5_signal_dtor_disconnects_slots (w : World) (S H : Nat)
    (hmem : ∀ m ∈ w.slotList H, m ∈ w.sigList S)
    (hown : ∀ m ∈ w.slotList H, w.nodeSlot m = H)
    (hnodup : (w.slotList H).Nodup)
    (hdel : w.slotDel H = false) (hne : H ≠ S) :
    (signal_dtor w S).slotList H = [] ∧
      slot_connected (signal_dtor w S) H = false := by
  have hdrain : (drain_signal (w.sigList S)
      { w with sigDel := upd w.sigDel S true }).slotList H = [] :=
    drain_signal_slotList_empty H (w.sigList S) _
      (fun m hm => ⟨hmem m hm, hown m hm⟩) hnodup hdel
  have hmain : (signal_dtor w S).slotList H = [] := by
    show upd (drain_slot
        ((signal_disconnect_all { w with sigDel := upd w.sigDel S true } S).slotList S)
        { signal_disconnect_all { w with sigDel := upd w.sigDel S true } S with
            slotDel := upd
              (signal_disconnect_all { w with sigDel := upd w.sigDel S true } S).slotDel
              S true }).slotList S [] H = []
    rw [upd_ne _ _ hne]
    rw [congrFun (drain_slot_frame _ _).1 H]
    exact hdrain
  exact ⟨hmain, by rw [slot_connected, hmain]; rfl⟩

theorem c5_witness :
    (signal_dtor
          (slot_connect (slot_connect (initWorld fun _ => HandlerKind.external) 1 0) 2 0)
          0).slotList 1 = [] ∧
      slot_connected
          (signal_dtor
            (slot_connect (slot_connect (initWorld fun _ => HandlerKind.external) 1 0) 2 0)
            0) 1 = false := by
  refine c5_signal_dtor_disconnects_slots _ 0 1 ?_ ?_ ?_ rfl ?_ <;> decide

/-- C6.  slot::disconnect(signal) removes at most one subscriber node per
call — exactly the first node of the slot's list whose signal pointer
equals the given signal — unthreading it from both lists, nulling its
signal field and returning it to the cache, while every other connection
and every other component of the state is left unchanged; when the slot
holds no node for that signal the call is a silent no-op that changes
nothing. -/
theorem c6_disconnect_at_most_one (w : World) (s g : Nat)
    (hdel : w.sigDel g = false) :
    ((∀ n ∈ w.slotList s, w.nodeSig n ≠ some g) → slot_disconnect w s g = w) ∧
      (∀ n, (w.slotList s).find? (fun m => w.nodeSig m == some g) = some n →
        slot_disconnect w s g =
          { w with
              slotList := upd w.slotList s ((w.slotList s).erase n)
              sigList := upd w.sigList g ((w.sigList g).erase n)
              nodeSig := upd w.nodeSig n none
              cache := upd w.cache s (n :: w.cache s) }) := by
  constructor
  · intro h
    refine slot_disconnect_none ?_
    rw [List.find?_eq_none]
    intro x hx
    simpa using h x hx
  · intro n hf
    exact slot_disconnect_found hf hdel

theorem c6_witness :
    slot_disconnect (slot_connect (initWorld fun _ => HandlerKind.external) 1 0) 1 5 =
        slot_connect (initWorld fun _ => HandlerKind.external) 1 0 ∧
      slot_disconnect (slot_connect (initWorld fun _ => HandlerKind.external) 1 0) 1 0 =
        { slot_connect (initWorld fun _ => HandlerKind.external) 1 0 with
            slotList := upd
              (slot_connect (initWorld fun _ => HandlerKind.external) 1 0).slotList 1
              (((slot_connect (initWorld fun _ => HandlerKind.external) 1 0).slotList
                  1).erase 0)
            sigList := upd
              (slot_connect (initWorld fun _ => HandlerKind.external) 1 0).sigList 0
              (((slot_connect (initWorld fun _ => HandlerKind.external) 1 0).sigList
                  0).erase 0)
            nodeSig := upd
              (slot_connect (initWorld fun _ => HandlerKind.external) 1 0).nodeSig 0 none
            cache := upd
              (slot_connect (initWorld fun _ => HandlerKind.external) 1 0).cache 1
              (0 ::
                (slot_connect (initWorld fun _ => HandlerKind.external) 1 0).cache 1) } :=
  ⟨(c6_disconnect_at_most_one
      (slot_connect (initWorld fun _ => HandlerKind.external) 1 0) 1 5 rfl).1
      (by decide),
    (c6_disconnect_at_most_one
      (slot_connect (initWorld fun _ => HandlerKind.external) 1 0) 1 0 rfl).2 0
      (by decide)⟩

/-- C9.  For signals A and B and a slot C, after connecting A to
B.to_slot() and connecting C to B, emitting v on A invokes C's handler
with argument v: A's emit reaches B's own delegate, which the signal
constructor bound to B's private_invoke, and private_invoke re-emits v to
B's subscribers. -/
theorem c9_chained_fanout (w : World) (A B C v fuel : Nat)
    (hw : WFAlloc w) (hA : w.sigList A = []) (hB : w.sigList B = [])
    (hhB : w.handle B = HandlerKind.sigInvoke B)
    (hhC : w.handle C = HandlerKind.external) (hAB : A ≠ B) :
    emitTrace (fuel + 1) (slot_connect (slot_connect w (to_slot B) A) C B) A v =
      [(C, v)] := by
  have ht : to_slot B = B := rfl
  rw [ht]
  have hw1 : WFAlloc (slot_connect w B A) := wfalloc_slot_connect hw B A
  have hsa1 : (slot_connect w B A).sigList A = [allocId w B] := by
    rw [slot_connect_sigList_self, hA]
  have hsb1 : (slot_connect w B A).sigList B = [] := by
    rw [slot_connect_sigList_other w B A (fun hEq : B = A => hAB hEq.symm)]
    exact hB
  have hne : allocId (slot_connect w B A) C ≠ allocId w B := by
    intro hEq
    have := allocId_not_mem_sigList hw1 C A
    rw [hsa1, hEq] at this
    exact this (List.mem_cons_self _ _)
  have hsa2 : (slot_connect (slot_connect w B A) C B).sigList A = [allocId w B] := by
    rw [slot_connect_sigList_other _ C B hAB]
    exact hsa1
  have hsb2 : (slot_connect (slot_connect w B A) C B).sigList B =
      [allocId (slot_connect w B A) C] := by
    rw [slot_connect_sigList_self, hsb1]
  have hna1 : (slot_connect (slot_connect w B A) C B).nodeSlot (allocId w B) = B := by
    rw [slot_connect_nodeSlot_other _ C B hne.symm]
    exact slot_connect_nodeSlot_self w B A
  have hna2 : (slot_connect (slot_connect w B A) C B).nodeSlot
      (allocId (slot_connect w B A) C) = C :=
    slot_connect_nodeSlot_self _ C B
  have hh : (slot_connect (slot_connect w B A) C B).handle = w.handle := by
    rw [slot_connect_handle, slot_connect_handle]
  rw [emitTrace, hsa2]
  rw [emitList_cons_sigInvoke _ fuel _ v B [] (by rw [hna1, hh]; exact hhB)]
  rw [emitList_nil, List.append_nil, hsb2]
  rw [emitList_cons_external _ fuel _ v [] (by rw [hna2, hh]; exact hhC)]
  rw [emitList_nil, hna2]

theorem c9_witness :
    emitTrace 3
        (slot_connect
          (slot_connect
            (initWorld fun s => if s = 1 then HandlerKind.sigInvoke 1 else
              HandlerKind.external)
            (to_slot 1) 0)
          2 1)
        0 6 = [(2, 6)] := by
  have h := c9_chained_fanout
    (initWorld fun s => if s = 1 then HandlerKind.sigInvoke 1 else HandlerKind.external)
    0 1 2 6 2 (wfalloc_initWorld _) rfl rfl (by decide) (by decide) (by decide)
  simpa using h

/-- C7.  Calling a delegate that was never bound, or was unbound via
unbind(), is safe and total: m_method always points at a real stub (never
null), the call runs empty_method and returns the value of the per-type
default-constructor table — false for bool, 0 for every numeric type,
nullptr for pointer types, and T() for any other type.  Totality of
Delegate.call is the model of never throwing. -/
theorem c7_unbound_delegate_default :
    (∀ (A : Type) (t : CppType) (a : A),
        (Delegate.mkDefault A t).call a = default_constructor t) ∧
      (∀ (A : Type) (t : CppType) (d : Delegate A t) (a : A),
        (d.unbind).call a = default_constructor t) ∧
      default_constructor CppType.tBool = false ∧
      default_constructor CppType.tChar = (0 : Int) ∧
      default_constructor CppType.tUChar = (0 : Nat) ∧
      default_constructor CppType.tShort = (0 : Int) ∧
      default_constructor CppType.tUShort = (0 : Nat) ∧
      default_constructor CppType.tInt = (0 : Int) ∧
      default_constructor CppType.tUInt = (0 : Nat) ∧
      default_constructor CppType.tLong = (0 : Int) ∧
      default_constructor CppType.tULong = (0 : Nat) ∧
      default_constructor CppType.tLongLong = (0 : Int) ∧
      default_constructor CppType.tULongLong = (0 : Nat) ∧
      default_constructor CppType.tFloat = (0 : Rat) ∧
      default_constructor CppType.tDouble = (0 : Rat) ∧
      default_constructor CppType.tPtr = none ∧
      default_constructor CppType.tConstPtr = none ∧
      (∀ (α : Type) (d : α), default_constructor (CppType.tUser α d) = d) :=
  ⟨fun _ _ _ => rfl, fun _ _ _ _ => rfl, rfl, rfl, rfl, rfl, rfl, rfl, rfl, rfl, rfl,
    rfl, rfl, rfl, rfl, rfl, rfl, fun _ _ => rfl⟩

/-!
Connect/disconnect cycles of constant width for the allocator-reuse claim.
-/

/-- k successive slot::connect(s, g) calls. -/
def cd_connects (s g : Nat) : Nat → World → World
  | 0, w => w
  | k + 1, w => cd_connects s g k (slot_connect w s g)

/-- k successive slot::disconnect(s, g) calls. -/
def cd_disconnects (s g : Nat) : Nat → World → World
  | 0, w => w
  | k + 1, w => cd_disconnects s g k (slot_disconnect w s g)

/-- One connect/disconnect cycle of width k on the pair (s, g). -/
def cd_cycle (s g k : Nat) (w : World) : World :=
  cd_disconnects s g k (cd_connects s g k w)

/-- m repetitions of the width-k cycle. -/
def cd_cycles (s g k : Nat) : Nat → World → World
  | 0, w => w
  | m + 1, w => cd_cycles s g k m (cd_cycle s g k w)

theorem cd_disconnects_succ (s g : Nat) :
    ∀ (k : Nat) (w : World),
      cd_disconnects s g (k + 1) w = slot_disconnect (cd_disconnects s g k w) s g := by
  intro k
  induction k with
  | zero => intro w; rfl
  | succ k ih =>
    intro w
    show cd_disconnects s g (k + 1) (slot_disconnect w s g) = _
    rw [ih (slot_disconnect w s g)]
    rfl

/-- One width-k cycle restores the cache, the backing-allocation counters
and both lists exactly, provided the cache already holds at least k
records: each connect pops the cache instead of calling the backing
allocator, each disconnect removes the most recently threaded node and
pushes its record back, and the pushes rebuild the original cache. -/
theorem cd_cycle_restore (s g : Nat) :
    ∀ (k : Nat) (w : World), k ≤ (w.cache s).length → (w.cache s).Nodup →
      w.sigDel g = false →
      (cd_cycle s g k w).cache s = w.cache s ∧
        (cd_cycle s g k w).slotList s = w.slotList s ∧
        (cd_cycle s g k w).sigList g = w.sigList g ∧
        (cd_cycle s g k w).backing = w.backing ∧
        (cd_cycle s g k w).nextId = w.nextId ∧
        (cd_cycle s g k w).sigDel = w.sigDel ∧
        (∀ n, n ∉ (w.cache s).take k → (cd_cycle s g k w).nodeSig n = w.nodeSig n) := by
  intro k
  induction k with
  | zero => intro w _ _ _; exact ⟨rfl, rfl, rfl, rfl, rfl, rfl, fun _ _ => rfl⟩
  | succ k ih =>
    intro w hk hnodup hdel
    obtain ⟨c, cs, hc⟩ : ∃ c cs, w.cache s = c :: cs := by
      cases hcc : w.cache s with
      | nil => rw [hcc] at hk; simp at hk
      | cons c cs => exact ⟨c, cs, rfl⟩
    have hpop := slot_connect_pop g hc
    have h1cache : (slot_connect w s g).cache s = cs := by
      rw [hpop]; dsimp only; rw [upd_same]
    have h1slot : (slot_connect w s g).slotList s = c :: w.slotList s := by
      rw [hpop]; dsimp only; rw [upd_same]
    have h1sig : (slot_connect w s g).sigList g = c :: w.sigList g := by
      rw [hpop]; dsimp only; rw [upd_same]
    have h1back : (slot_connect w s g).backing = w.backing := by rw [hpop]
    have h1next : (slot_connect w s g).nextId = w.nextId := by rw [hpop]
    have h1del : (slot_connect w s g).sigDel = w.sigDel := by rw [hpop]
    have h1nsc : (slot_connect w s g).nodeSig c = some g := by
      rw [hpop]; dsimp only; rw [upd_same]
    have h1ns : ∀ n, n ≠ c → (slot_connect w s g).nodeSig n = w.nodeSig n := by
      intro n hn
      rw [hpop]; dsimp only; rw [upd_ne _ _ hn]
    have hlen : k ≤ cs.length := by
      rw [hc] at hk
      simpa using hk
    have hnodup2 : cs.Nodup := by
      rw [hc] at hnodup
      exact (List.nodup_cons.mp hnodup).2
    have hccs : c ∉ cs := by
      rw [hc] at hnodup
      exact (List.nodup_cons.mp hnodup).1
    rcases ih (slot_connect w s g) (by rw [h1cache]; exact hlen)
      (by rw [h1cache]; exact hnodup2) (by rw [h1del]; exact hdel) with
      ⟨i1, i2, i3, i4, i5, i6, i7⟩
    have hcyc : cd_cycle s g (k + 1) w =
        slot_disconnect (cd_cycle s g k (slot_connect w s g)) s g := by
      show cd_disconnects s g (k + 1) (cd_connects s g (k + 1) w) = _
      rw [cd_disconnects_succ]
      rfl
    have h2sigc : (cd_cycle s g k (slot_connect w s g)).nodeSig c = some g := by
      rw [i7 c (by rw [h1cache]; intro hmem; exact hccs (List.take_subset _ _ hmem))]
      exact h1nsc
    have h2slot : (cd_cycle s g k (slot_connect w s g)).slotList s =
        c :: w.slotList s := by rw [i2, h1slot]
    have h2sig : (cd_cycle s g k (slot_connect w s g)).sigList g =
        c :: w.sigList g := by rw [i3, h1sig]
    have h2del : (cd_cycle s g k (slot_connect w s g)).sigDel g = false := by
      rw [i6, h1del]
      exact hdel
    have hfind : ((cd_cycle s g k (slot_connect w s g)).slotList s).find?
        (fun m => (cd_cycle s g k (slot_connect w s g)).nodeSig m == some g) =
          some c := by
      rw [h2slot]
      exact List.find?_cons_of_pos _ (by rw [h2sigc]; exact beq_self_eq_true _)
    have hdisc := slot_disconnect_found hfind h2del
    rw [hcyc, hdisc]
    dsimp only
    refine ⟨?_, ?_, ?_, ?_, ?_, ?_, ?_⟩
    · rw [upd_same, i1, h1cache, hc]
    · rw [upd_same, h2slot, List.erase_cons_head]
    · rw [upd_same, h2sig, List.erase_cons_head]
    · rw [i4, h1back]
    · rw [i5, h1next]
    · rw [i6, h1del]
    · intro n hn
      rw [hc, List.take_succ_cons] at hn
      have hnc : n ≠ c := fun hEq => hn (hEq ▸ List.mem_cons_self c _)
      have hncs : n ∉ cs.take k := fun hmem => hn (List.mem_cons_of_mem _ hmem)
      rw [upd_ne _ _ hnc]
      rw [i7 n (by rw [h1cache]; exact hncs)]
      exact h1ns n hnc

theorem cd_cycles_restore (s g : Nat) :
    ∀ (m k : Nat) (w : World), k ≤ (w.cache s).length → (w.cache s).Nodup →
      w.sigDel g = false →
      (cd_cycles s g k m w).cache s = w.cache s ∧
        (cd_cycles s g k m w).slotList s = w.slotList s ∧
        (cd_cycles s g k m w).sigList g = w.sigList g ∧
        (cd_cycles s g k m w).backing = w.backing ∧
        (cd_cycles s g k m w).sigDel = w.sigDel := by
  intro m
  induction m with
  | zero => intro k w _ _ _; exact ⟨rfl, rfl, rfl, rfl, rfl⟩
  | succ m ih =>
    intro k w hk hnodup hdel
    rcases cd_cycle_restore s g k w hk hnodup hdel with ⟨r1, r2, r3, r4, -, r6, -⟩
    have hstep : cd_cycles s g k (m + 1) w = cd_cycles s g k m (cd_cycle s g k w) := rfl
    rw [hstep]
    rcases ih k (cd_cycle s g k w) (by rw [r1]; exact hk) (by rw [r1]; exact hnodup)
      (by rw [r6]; exact hdel) with ⟨m1, m2, m3, m4, m5⟩
    exact ⟨m1.trans r1, m2.trans r2, m3.trans r3, m4.trans r4, m5.trans r6⟩

/-- C8.  For a slot whose allocator cache holds at least the cycle width,
repeated connect/disconnect cycles of that width cause zero net growth in
backing allocations: every backing counter is unchanged after any number
of cycles, the cache is restored to exactly the same records (deallocate
pushes each node back and the next allocate pops it LIFO instead of
calling the backing allocator), and both intrusive lists return to their
original contents. -/
theorem c8_cycle_no_backing_growth (w : World) (s g k m : Nat)
    (hk : k ≤ (w.cache s).length) (hnodup : (w.cache s).Nodup)
    (hdel : w.sigDel g = false) :
    (cd_cycles s g k m w).backing = w.backing ∧
      (cd_cycles s g k m w).cache s = w.cache s ∧
      (cd_cycles s g k m w).slotList s = w.slotList s ∧
      (cd_cycles s g k m w).sigList g = w.sigList g := by
  rcases cd_cycles_restore s g m k w hk hnodup hdel with ⟨r1, r2, r3, r4, -⟩
  exact ⟨r4, r1, r2, r3⟩

theorem c8_witness :
    (cd_cycles 1 0 1 2
          (slot_disconnect (slot_connect (initWorld fun _ => HandlerKind.external) 1 0) 1
            0)).backing =
        (slot_disconnect (slot_connect (initWorld fun _ => HandlerKind.external) 1 0) 1
            0).backing ∧
      (cd_cycles 1 0 1 2
            (slot_disconnect (slot_connect (initWorld fun _ => HandlerKind.external) 1 0)
              1 0)).cache 1 =
        (slot_disconnect (slot_connect (initWorld fun _ => HandlerKind.external) 1 0) 1
            0).cache 1 ∧
      (cd_cycles 1 0 1 2
            (slot_disconnect (slot_connect (initWorld fun _ => HandlerKind.external) 1 0)
              1 0)).slotList 1 =
        (slot_disconnect (slot_connect (initWorld fun _ => HandlerKind.external) 1 0) 1
            0).slotList 1 ∧
      (cd_cycles 1 0 1 2
            (slot_disconnect (slot_connect (initWorld fun _ => HandlerKind.external) 1 0)
              1 0)).sigList 0 =
        (slot_disconnect (slot_connect (initWorld fun _ => HandlerKind.external) 1 0) 1
            0).sigList 0 :=
  c8_cycle_no_backing_growth
    (slot_disconnect (slot_connect (initWorld fun _ => HandlerKind.external) 1 0) 1 0)
    1 0 1 2 (by decide) (by decide) (by decide)
